import Mathlib

/-!
# Verification of the svelte-radar route engine

A shallow embedding of the route-resolution, classification, build-support and
flatten logic of `src/providers/routesProvider.ts` (class `RoutesProvider`),
together with the natural-sort helper of `src/utils/routeUtils.ts`
(`RouteUtils.naturalSort`), and proofs about them.

Conventions of the embedding:
* JavaScript strings are Lean `String`s; `String.prototype.startsWith`,
  `endsWith` and `includes` are modelled by `strStartsWith`, `strEndsWith` and
  `strIncludes`, implemented over the underlying `List Char` so that they
  reduce well in the kernel.
* The file system is a rose tree (`FSTree`): a directory's `fs.readdir` result
  is the list of entry names in listing order; `fs.statSync(x).isDirectory()`
  is constructor-level information.
* Absolute file paths (`path.join(dir, file)`) are modelled as the list of
  name segments from the routes root, so a resolver result identifies both the
  directory and the file.
* The concrete regexes of the provider are translated into executable
  character-list scanners, one per regex, with the JS leftmost-match
  semantics spelled out at each definition.
* Scores are `Int` because the resolver initialises `bestScore` with `-1`.
-/

/-- Models JS `a.startsWith(b)`. -/
def strStartsWith (s p : String) : Bool :=
  List.isPrefixOf p.data s.data

/-- Models JS `a.endsWith(b)`. -/
def strEndsWith (s p : String) : Bool :=
  List.isSuffixOf p.data s.data

/-- Substring scan: does `pat` occur (contiguously) in the list?  Tries every
start position, as JS `includes` does. -/
def listScanFor (pat : List Char) : List Char → Bool
  | [] => List.isPrefixOf pat []
  | c :: rest => List.isPrefixOf pat (c :: rest) || listScanFor pat rest

/-- Models JS `a.includes(b)` (substring containment). -/
def strIncludes (s p : String) : Bool :=
  listScanFor p.data s.data

/-- Models JS `a.includes(c)` for a single character. -/
def strHasChar (s : String) (c : Char) : Bool :=
  s.data.contains c

/-- The route/segment kinds used by the provider (`RouteType` in
`src/constant/type.ts`, extended with the `matcher` and `spacer` values the
provider code uses). -/
inductive RouteType where
  | static
  | dynamic
  | rest
  | optional
  | matcher
  | group
  | error
  | layout
  | divider
  | spacer
deriving DecidableEq, Repr

/-- `RoutesProvider.getRouteType` (resolver-side classifier): branch-for-branch
translation of the source's `if` chain. -/
def getRouteType (entry : String) : RouteType :=
  if strStartsWith entry "(" && strEndsWith entry ")" then .group
  else if !(strHasChar entry '[') then .static
  else if strStartsWith entry "[[" && strEndsWith entry "]]" then .optional
  else if strStartsWith entry "[..." then .rest
  else if strHasChar entry '[' && strHasChar entry '=' then .matcher
  else .dynamic

/-- `RoutesProvider.determineRouteType` (tree-builder-side classifier). -/
def determineRouteType (entry : String) : RouteType :=
  if strStartsWith entry "(" && strEndsWith entry ")" then .group
  else if strStartsWith entry "[..." && strEndsWith entry "]" then .rest
  else if strStartsWith entry "[[" && strEndsWith entry "]]" then .optional
  else if strStartsWith entry "[" && strEndsWith entry "]" then .dynamic
  else .static

/-- `\d` character class. -/
def isDigitChar (c : Char) : Bool :=
  '0' ≤ c && c ≤ '9'

/-- `[a-zA-Z]` character class. -/
def isAlphaChar (c : Char) : Bool :=
  ('a' ≤ c && c ≤ 'z') || ('A' ≤ c && c ≤ 'Z')

/-- `[0-9a-f]` with the `i` flag, i.e. a hexadecimal digit of either case. -/
def isHexChar (c : Char) : Bool :=
  isDigitChar c || ('a' ≤ c && c ≤ 'f') || ('A' ≤ c && c ≤ 'F')

/-- The `integer` matcher regex `^\d+$`. -/
def integerPat (s : String) : Bool :=
  !s.data.isEmpty && s.data.all isDigitChar

/-- The `float` matcher regex `^\d*\.?\d+$`: optional digits, an optional dot,
then at least one digit. -/
def floatPat (s : String) : Bool :=
  let sp := s.data.span isDigitChar
  match sp.2 with
  | [] => !sp.1.isEmpty
  | '.' :: rest => !rest.isEmpty && rest.all isDigitChar
  | _ => false

/-- The `alpha` matcher regex `^[a-zA-Z]+$`. -/
def alphaPat (s : String) : Bool :=
  !s.data.isEmpty && s.data.all isAlphaChar

/-- The `alphanumeric` matcher regex `^[a-zA-Z0-9]+$`. -/
def alphanumericPat (s : String) : Bool :=
  !s.data.isEmpty && s.data.all (fun c => isAlphaChar c || isDigitChar c)

/-- Split a character list at every occurrence of `sep`, keeping empty
pieces: the semantics of JS `String.prototype.split` with a one-character
separator (`"".split(sep)` is `[""]`). -/
def splitOnCharList (sep : Char) : List Char → List (List Char)
  | [] => [[]]
  | c :: rest =>
    if c == sep then [] :: splitOnCharList sep rest
    else
      match splitOnCharList sep rest with
      | h :: t => (c :: h) :: t
      | [] => [[c]]

/-- Models JS `s.split(sep)` for a one-character separator. -/
def strSplitOnChar (s : String) (sep : Char) : List String :=
  (splitOnCharList sep s.data).map String.mk

/-- The `uuid` matcher regex
`^[0-9a-f]{8}-[0-9a-f]{4}-[0-9a-f]{4}-[0-9a-f]{4}-[0-9a-f]{12}$/i`.
Because the hex class excludes `-`, the regex holds exactly when the string
splits at `-` into five hex groups of lengths 8, 4, 4, 4, 12. -/
def uuidPat (s : String) : Bool :=
  match splitOnCharList '-' s.data with
  | [a, b, c, d, e] =>
    a.length == 8 && b.length == 4 && c.length == 4 && d.length == 4 &&
    e.length == 12 && (a ++ b ++ c ++ d ++ e).all isHexChar
  | _ => false

/-- The `date` matcher regex `^\d{4}-\d{2}-\d{2}$`; as for `uuid`, `\d`
excludes `-`, so the regex is equivalent to this split form. -/
def datePat (s : String) : Bool :=
  match splitOnCharList '-' s.data with
  | [a, b, c] =>
    a.length == 4 && b.length == 2 && c.length == 2 &&
    (a ++ b ++ c).all isDigitChar
  | _ => false

/-- The `patterns` lookup table of `isParameterMatchGeneric`:
`patterns[matcher]` is `some` exactly for the six built-in matcher names. -/
def matcherPattern (m : String) : Option (String → Bool) :=
  if m == "integer" then some integerPat
  else if m == "float" then some floatPat
  else if m == "alpha" then some alphaPat
  else if m == "alphanumeric" then some alphanumericPat
  else if m == "uuid" then some uuidPat
  else if m == "date" then some datePat
  else none

/-- After the opening `[` of `/\[([^=]+)=([^\]]+)\]/`: a nonempty run of
non-`=` characters (group 1), the literal `=`, a nonempty run of non-`]`
characters (group 2), and the literal `]`.  Returns group 2.  Since the
classes exclude the closing literals, the greedy runs end exactly at the
first following `=` resp. `]`. -/
def tryMatchAfterBracket (cs : List Char) : Option String :=
  match cs.span (fun c => c != '=') with
  | (g1, '=' :: rest2) =>
    if g1.isEmpty then none
    else
      match rest2.span (fun c => c != ']') with
      | (g2, ']' :: _) => if g2.isEmpty then none else some (String.mk g2)
      | _ => none
  | _ => none

/-- Leftmost match of `paramPattern.match(/\[([^=]+)=([^\]]+)\]/)`: scan for
the first `[` from which the bracket body matches, as the JS engine does, and
return the `matcher` capture (group 2). -/
def matcherOfPattern : List Char → Option String
  | [] => none
  | c :: rest =>
    if c == '[' then
      match tryMatchAfterBracket rest with
      | some m => some m
      | none => matcherOfPattern rest
    else matcherOfPattern rest

/-- `RoutesProvider.isParameterMatchGeneric`: extract the matcher name from
the directory name; unknown matcher names always succeed. -/
def isParameterMatchGeneric (value paramPattern : String) : Bool :=
  match matcherOfPattern paramPattern.data with
  | none => false
  | some m =>
    match matcherPattern m with
    | some pat => pat value
    | none => true

/-! ## File-system model and `findMostSpecificPage` -/

/-- A file-system entry: the routes tree as data.  A directory's entry list is
the `fs.readdir` result in listing order. -/
inductive FSTree where
  | file : String → FSTree
  | dir : String → List FSTree → FSTree
deriving Repr

/-- The entry name, as returned by `fs.readdir`. -/
def FSTree.name : FSTree → String
  | .file n => n
  | .dir n _ => n

/-- Scanner for `/\+page@\([^)]+\)\.svelte$/`, part 3: after the nonempty
`[^)]+` group has started, take characters up to the first `)` (the class
cannot cross it) and require exactly `.svelte` to remain. -/
def resetCloseTail : List Char → Bool
  | [] => false
  | c :: rest => if c == ')' then rest == ".svelte".data else resetCloseTail rest

/-- Scanner part 2: the `[^)]+` group must be nonempty, so the character
right after `(` may not be `)`. -/
def resetAfterOpen : List Char → Bool
  | [] => false
  | c :: rest => if c == ')' then false else resetCloseTail rest

/-- Scanner part 1: JS `regex.test` tries every start position from the left;
the pattern is `+page@(`, then `[^)]+`, then `).svelte` at the end. -/
def resetTargetScan : List Char → Bool
  | [] => false
  | c :: rest =>
    (List.isPrefixOf "+page@(".data (c :: rest) && resetAfterOpen ((c :: rest).drop 7))
      || resetTargetScan rest

/-- `f.match(/\+page@\([^)]+\)\.svelte$/)` viewed as a test: a layout-reset
page naming an explicit target group. -/
def resetTargetTest (f : String) : Bool :=
  resetTargetScan f.data

/-- `RoutesProvider.findMostSpecificPage`.  The four `filePriorities` checks
of the source are unrolled in order: layout reset with target, root layout
reset, `+server.js`, regular page.  `fs.readdirSync(dir)` yields every entry
name (files and subdirectories alike), hence the scan over all names.
`dir` is passed as the list of path segments from the routes root (`pfx`) so
that the returned `path.join(dir, file)` is `pfx ++ [file]`; the
`fs.existsSync` guard is vacuous here because the directory is given as data. -/
def findMostSpecificPage (pfx : List String) (entries : List FSTree) : Option (List String) :=
  let files := entries.map FSTree.name
  match files.find? resetTargetTest with
  | some f => some (pfx ++ [f])
  | none =>
    match files.find? (fun f => f == "+page@.svelte") with
    | some f => some (pfx ++ [f])
    | none =>
      match files.find? (fun f => f == "+server.js") with
      | some f => some (pfx ++ [f])
      | none =>
        match files.find? (fun f => f == "+page.svelte") with
        | some f => some (pfx ++ [f])
        | none => none

/-! ## The resolver `findMatchingSegments` -/

/-- The zero-segments loop of `findMatchingSegments`: for each entry named
`[[...]]` (the source checks only the name, not directory-ness; `readdir` of
an actual file would throw, so route trees never hold such files and the model
skips them), return the first `findMostSpecificPage` hit one level deeper. -/
def zeroOptScan (pfx : List String) : List FSTree → Option (List String)
  | [] => none
  | e :: es =>
    match e with
    | .dir n cs =>
      if strStartsWith n "[[" && strEndsWith n "]]" then
        match findMostSpecificPage (pfx ++ [n]) cs with
        | some r => some r
        | none => zeroOptScan pfx es
      else zeroOptScan pfx es
    | .file _ => zeroOptScan pfx es

/-- One step of the `bestMatch`/`bestScore` accumulation common to both
resolver passes: a candidate replaces the current best only when it matched
and its score is strictly greater. -/
def bestStep (acc : Option (List String) × Int) (c : Option (List String) × Int) :
    Option (List String) × Int :=
  match c with
  | (some m, score) => if score > acc.2 then (some m, score) else acc
  | (none, _) => acc

/-- Fold a pass's candidate list with `bestStep`, starting from
`bestMatch = null`, `bestScore = -1`, and return the best match. -/
def bestOf (cands : List (Option (List String) × Int)) : Option (List String) :=
  (cands.foldl bestStep (none, -1)).1

/-- `RoutesProvider.findMatchingSegments`.  With segments left, the source
runs two passes over the directory entries, each computing a
`(match, score)` candidate per entry (files are skipped by the
`isDirectory()` guard) and keeping the best via `bestStep`; the second pass
runs only when the first produced no match.  Candidate scores are exactly the
source's: static 100, matcher 90, group 95, dynamic 80, optional 70/60,
rest 50. -/
def fms (pfx : List String) (entries : List FSTree) (segments : List String) :
    Option (List String) :=
  match segments with
  | [] =>
    match zeroOptScan pfx entries with
    | some r => some r
    | none => findMostSpecificPage pfx entries
  | s0 :: rest =>
    let cands1 := entries.attach.map (fun x =>
      match x with
      | ⟨FSTree.file _, _⟩ => ((none : Option (List String)), (0 : Int))
      | ⟨FSTree.dir n cs, _⟩ =>
        if getRouteType n == RouteType.static && n == s0 then
          (fms (pfx ++ [n]) cs rest, 100)
        else if getRouteType n == RouteType.matcher then
          if isParameterMatchGeneric s0 n then (fms (pfx ++ [n]) cs rest, 90)
          else (none, 0)
        else (none, 0))
    match bestOf cands1 with
    | some m => some m
    | none =>
      let cands2 := entries.attach.map (fun x =>
        match x with
        | ⟨FSTree.file _, _⟩ => ((none : Option (List String)), (0 : Int))
        | ⟨FSTree.dir n cs, _⟩ =>
          match getRouteType n with
          | .group =>
            (match fms (pfx ++ [n]) cs (s0 :: rest) with
             | some m => (some m, 95)
             | none => (none, 0))
          | .dynamic => (fms (pfx ++ [n]) cs rest, 80)
          | .optional =>
            (match fms (pfx ++ [n]) cs rest with
             | some m => (some m, 70)
             | none =>
               match fms (pfx ++ [n]) cs (s0 :: rest) with
               | some m => (some m, 60)
               | none => (none, 0))
          | .rest => (findMostSpecificPage (pfx ++ [n]) cs, 50)
          | _ => (none, 0))
      bestOf cands2
termination_by sizeOf entries
decreasing_by
  all_goals
    simp_wf
    rename _ ∈ _ => hmem
    have hm := List.sizeOf_lt_of_mem hmem
    simp [FSTree.dir.sizeOf_spec] at hm
    omega

/-- `RoutesProvider.findMatchingRoute`: root paths go straight to
`findMostSpecificPage`; otherwise split on `/`, drop empty segments
(`filter(Boolean)`), and descend. -/
def findMatchingRoute (root : List FSTree) (relativePath : String) : Option (List String) :=
  if relativePath == "/" || relativePath == "" then
    findMostSpecificPage [] root
  else
    fms [] root ((strSplitOnChar relativePath '/').filter (fun s => s != ""))

/-! ## Resolver pass candidates, spelled as plain functions -/

/-- The first-pass candidate `(match, score)` computed for one directory
entry: static children matching the segment exactly (score 100) and matcher
children whose predicate accepts it (score 90). -/
def cand1 (pfx : List String) (s0 : String) (rest : List String) : FSTree →
    Option (List String) × Int
  | .file _ => (none, 0)
  | .dir n cs =>
    if getRouteType n == RouteType.static && n == s0 then
      (fms (pfx ++ [n]) cs rest, 100)
    else if getRouteType n == RouteType.matcher then
      if isParameterMatchGeneric s0 n then (fms (pfx ++ [n]) cs rest, 90)
      else (none, 0)
    else (none, 0)

/-- The second-pass candidate `(match, score)` computed for one directory
entry: group pass-through 95, dynamic 80, optional 70/60, rest 50. -/
def cand2 (pfx : List String) (s0 : String) (rest : List String) : FSTree →
    Option (List String) × Int
  | .file _ => (none, 0)
  | .dir n cs =>
    match getRouteType n with
    | .group =>
      (match fms (pfx ++ [n]) cs (s0 :: rest) with
       | some m => (some m, 95)
       | none => (none, 0))
    | .dynamic => (fms (pfx ++ [n]) cs rest, 80)
    | .optional =>
      (match fms (pfx ++ [n]) cs rest with
       | some m => (some m, 70)
       | none =>
         match fms (pfx ++ [n]) cs (s0 :: rest) with
         | some m => (some m, 60)
         | none => (none, 0))
    | .rest => (findMostSpecificPage (pfx ++ [n]) cs, 50)
    | _ => (none, 0)

theorem attachMapEq {α β : Type} (l : List α) (f : {x // x ∈ l} → β) (g : α → β)
    (h : ∀ (a : α) (ha : a ∈ l), f ⟨a, ha⟩ = g a) : l.attach.map f = l.map g := by
  have hfg : f = fun x => g x.1 := funext (fun x => match x with | ⟨a, ha⟩ => h a ha)
  rw [hfg]
  exact List.attach_map_coe l g

/-- Unfolding of `fms` with no segments left. -/
theorem fms_nil (pfx : List String) (entries : List FSTree) :
    fms pfx entries [] =
      match zeroOptScan pfx entries with
      | some r => some r
      | none => findMostSpecificPage pfx entries := by
  rw [fms]

/-- Unfolding of `fms` with a segment left, with both passes expressed
through the plain per-entry candidate functions. -/
theorem fms_cons (pfx : List String) (entries : List FSTree) (s0 : String)
    (rest : List String) :
    fms pfx entries (s0 :: rest) =
      match bestOf (entries.map (cand1 pfx s0 rest)) with
      | some m => some m
      | none => bestOf (entries.map (cand2 pfx s0 rest)) := by
  rw [fms]
  rw [attachMapEq entries _ (cand1 pfx s0 rest) (fun a ha => by cases a <;> rfl),
    attachMapEq entries _ (cand2 pfx s0 rest) (fun a ha => by cases a <;> rfl)]

/-! ## Properties of the best-candidate fold -/

theorem bestStep_snd_lt {acc c : Option (List String) × Int} {s : Int}
    (hacc : acc.2 < s) (hc : c.1 = none ∨ c.2 < s) : (bestStep acc c).2 < s := by
  obtain ⟨m, sc⟩ := c
  cases m with
  | none => simpa [bestStep] using hacc
  | some m =>
    simp only [bestStep]
    split
    · rcases hc with h | h
      · simp at h
      · simpa using h
    · exact hacc

theorem foldl_bestStep_lt (s : Int) (A : List (Option (List String) × Int)) :
    ∀ acc : Option (List String) × Int, acc.2 < s →
      (∀ c ∈ A, c.1 = none ∨ c.2 < s) → (A.foldl bestStep acc).2 < s := by
  induction A with
  | nil => intro acc h _; simpa using h
  | cons c cs ih =>
    intro acc hacc hall
    simp only [List.foldl_cons]
    exact ih _ (bestStep_snd_lt hacc (hall c (by simp)))
      (fun d hd => hall d (by simp [hd]))

theorem foldl_bestStep_keep (B : List (Option (List String) × Int)) :
    ∀ acc : Option (List String) × Int,
      (∀ c ∈ B, c.1 = none ∨ c.2 ≤ acc.2) → B.foldl bestStep acc = acc := by
  induction B with
  | nil => intro acc _; rfl
  | cons c cs ih =>
    intro acc hall
    simp only [List.foldl_cons]
    have hstep : bestStep acc c = acc := by
      obtain ⟨m, sc⟩ := c
      cases m with
      | none => rfl
      | some m =>
        simp only [bestStep]
        rcases hall (some m, sc) (by simp) with h | h
        · simp at h
        · simp only at h
          split
          · omega
          · rfl
    rw [hstep]
    exact ih acc (fun d hd => hall d (by simp [hd]))

/-- The core tie-break fact about both resolver passes: the first candidate of
maximal score wins, because a later candidate replaces the current best only
on a strictly greater score. -/
theorem bestOf_mid (A B : List (Option (List String) × Int)) (r : List String)
    (s : Int) (hs : -1 < s)
    (hA : ∀ c ∈ A, c.1 = none ∨ c.2 < s)
    (hB : ∀ c ∈ B, c.1 = none ∨ c.2 ≤ s) :
    bestOf (A ++ (some r, s) :: B) = some r := by
  unfold bestOf
  rw [List.foldl_append]
  simp only [List.foldl_cons]
  have hlt : (A.foldl bestStep ((none : Option (List String)), (-1 : Int))).2 < s :=
    foldl_bestStep_lt s A (none, -1) (by simpa using hs) hA
  have hstep : bestStep (A.foldl bestStep (none, -1)) (some r, s) = (some r, s) := by
    simp only [bestStep]
    split
    · rfl
    · omega
  rw [hstep, foldl_bestStep_keep B (some r, s) (fun c hc => by
    rcases hB c hc with h | h
    · exact Or.inl h
    · exact Or.inr h)]

/-! ## First-pass hit predicates -/

/-- A directory entry that the first resolver pass scores as a static hit:
a subdirectory whose name is `static`-typed, equals the current segment, and
whose subtree resolves. -/
def staticHit (pfx : List String) (s0 : String) (rest : List String) : FSTree → Bool
  | .file _ => false
  | .dir n cs =>
    getRouteType n == RouteType.static && n == s0 && (fms (pfx ++ [n]) cs rest).isSome

/-- A directory entry that produces any successful first-pass candidate:
a static hit, or a matcher child whose predicate accepts the segment and
whose subtree resolves. -/
def firstPassHit (pfx : List String) (s0 : String) (rest : List String) : FSTree → Bool
  | .file _ => false
  | .dir n cs =>
    (getRouteType n == RouteType.static && n == s0 && (fms (pfx ++ [n]) cs rest).isSome)
    || (getRouteType n == RouteType.matcher && isParameterMatchGeneric s0 n
          && (fms (pfx ++ [n]) cs rest).isSome)

theorem cand1_none_of_no_firstPassHit (pfx : List String) (s0 : String)
    (rest : List String) (e : FSTree) (h : firstPassHit pfx s0 rest e = false) :
    (cand1 pfx s0 rest e).1 = none := by
  cases e with
  | file n => rfl
  | dir n cs =>
    simp only [firstPassHit] at h
    simp only [cand1]
    split
    · rename_i hcond
      rw [Bool.and_eq_true] at hcond
      cases hf : fms (pfx ++ [n]) cs rest with
      | none => rfl
      | some v => simp [hcond.1, hcond.2, hf] at h
    · split
      · rename_i hm
        split
        · rename_i hacc
          cases hf : fms (pfx ++ [n]) cs rest with
          | none => rfl
          | some v => simp [hm, hacc, hf] at h
        · rfl
      · rfl

theorem cand1_of_no_staticHit (pfx : List String) (s0 : String)
    (rest : List String) (e : FSTree) (h : staticHit pfx s0 rest e = false) :
    (cand1 pfx s0 rest e).1 = none ∨ (cand1 pfx s0 rest e).2 ≤ 90 := by
  cases e with
  | file n => exact Or.inl rfl
  | dir n cs =>
    simp only [staticHit] at h
    simp only [cand1]
    split
    · rename_i hcond
      rw [Bool.and_eq_true] at hcond
      left
      cases hf : fms (pfx ++ [n]) cs rest with
      | none => rfl
      | some v => simp [hcond.1, hcond.2, hf] at h
    · split
      · split
        · right; simp
        · left; rfl
      · left; rfl

theorem cand1_snd_le_100 (pfx : List String) (s0 : String) (rest : List String)
    (e : FSTree) : (cand1 pfx s0 rest e).2 ≤ 100 := by
  cases e with
  | file n => simp [cand1]
  | dir n cs =>
    simp only [cand1]
    split
    · simp
    · split
      · split <;> simp
      · simp

/-- C1: in a directory holding both a static child whose name equals the next
path segment (with a resolving subtree) and any other children, the resolver
returns the static subtree's file: the first pass scores the static child
100, every other candidate is either scored lower or failed, and the second
pass (where dynamic children live) is not even consulted.  `hpre` says no
earlier sibling is a successful static hit (directory listings cannot repeat
a name, so this holds in any real tree). -/
theorem resolve_static_beats_dynamic
    (pfx : List String) (s0 : String) (rest : List String)
    (pre post cs : List FSTree) (r : List String)
    (hty : getRouteType s0 = RouteType.static)
    (hr : fms (pfx ++ [s0]) cs rest = some r)
    (hpre : ∀ e ∈ pre, staticHit pfx s0 rest e = false) :
    fms pfx (pre ++ FSTree.dir s0 cs :: post) (s0 :: rest) = some r := by
  rw [fms_cons]
  have hc : cand1 pfx s0 rest (FSTree.dir s0 cs) = (some r, 100) := by
    simp [cand1, hty, hr]
  have hbest :
      bestOf ((pre ++ FSTree.dir s0 cs :: post).map (cand1 pfx s0 rest)) = some r := by
    rw [List.map_append, List.map_cons, hc]
    refine bestOf_mid _ _ _ _ (by norm_num) ?_ ?_
    · intro c hcm
      obtain ⟨e, he, rfl⟩ := List.mem_map.mp hcm
      rcases cand1_of_no_staticHit pfx s0 rest e (hpre e he) with h | h
      · exact Or.inl h
      · exact Or.inr (by omega)
    · intro c hcm
      obtain ⟨e, he, rfl⟩ := List.mem_map.mp hcm
      exact Or.inr (cand1_snd_le_100 pfx s0 rest e)
  rw [hbest]

/-- Witness for C1: the spec's own example, `about/team` (static) next to
`about/[slug]` (dynamic), both with a page file; `/about/team` resolves to
the static subtree's file. -/
theorem resolve_static_beats_dynamic_witness :
    fms ["about"]
      [FSTree.dir "team" [FSTree.file "+page.svelte"],
       FSTree.dir "[slug]" [FSTree.file "+page.svelte"]] ["team"]
      = some ["about", "team", "+page.svelte"] :=
  resolve_static_beats_dynamic ["about"] "team" [] []
    [FSTree.dir "[slug]" [FSTree.file "+page.svelte"]]
    [FSTree.file "+page.svelte"] ["about", "team", "+page.svelte"]
    (by decide) (by rw [fms_nil]; decide) (by simp)

/-- C10: when two sibling matcher directories both accept the current segment
and both subtrees resolve (equal score 90), the resolver returns the match of
the sibling listed first, because `bestStep` replaces the current best only
on a strictly greater score.  The other siblings contribute no successful
first-pass candidate of higher score. -/
theorem resolve_equal_score_first_listed_wins
    (pfx : List String) (s0 : String) (rest : List String)
    (pre mid post cs1 cs2 : List FSTree) (n1 n2 : String) (r1 r2 : List String)
    (h1ty : getRouteType n1 = RouteType.matcher)
    (h1m : isParameterMatchGeneric s0 n1 = true)
    (h1r : fms (pfx ++ [n1]) cs1 rest = some r1)
    (h2ty : getRouteType n2 = RouteType.matcher)
    (h2m : isParameterMatchGeneric s0 n2 = true)
    (h2r : fms (pfx ++ [n2]) cs2 rest = some r2)
    (hpre : ∀ e ∈ pre, firstPassHit pfx s0 rest e = false)
    (hmid : ∀ e ∈ mid, firstPassHit pfx s0 rest e = false)
    (hpost : ∀ e ∈ post, staticHit pfx s0 rest e = false) :
    fms pfx (pre ++ FSTree.dir n1 cs1 :: (mid ++ FSTree.dir n2 cs2 :: post))
      (s0 :: rest) = some r1 := by
  rw [fms_cons]
  have hc1 : cand1 pfx s0 rest (FSTree.dir n1 cs1) = (some r1, 90) := by
    simp [cand1, h1ty, h1m, h1r]
  have hc2 : cand1 pfx s0 rest (FSTree.dir n2 cs2) = (some r2, 90) := by
    simp [cand1, h2ty, h2m, h2r]
  have hbest :
      bestOf ((pre ++ FSTree.dir n1 cs1 :: (mid ++ FSTree.dir n2 cs2 :: post)).map
        (cand1 pfx s0 rest)) = some r1 := by
    rw [List.map_append, List.map_cons, hc1]
    refine bestOf_mid _ _ _ _ (by norm_num) ?_ ?_
    · intro c hcm
      obtain ⟨e, he, rfl⟩ := List.mem_map.mp hcm
      exact Or.inl (cand1_none_of_no_firstPassHit pfx s0 rest e (hpre e he))
    · intro c hcm
      rw [List.map_append, List.map_cons] at hcm
      rcases List.mem_append.mp hcm with hcm | hcm
      · obtain ⟨e, he, rfl⟩ := List.mem_map.mp hcm
        exact Or.inl (cand1_none_of_no_firstPassHit pfx s0 rest e (hmid e he))
      · rcases List.mem_cons.mp hcm with hcm | hcm
        · rw [hcm, hc2]; right; simp
        · obtain ⟨e, he, rfl⟩ := List.mem_map.mp hcm
          exact cand1_of_no_staticHit pfx s0 rest e (hpost e he)
  rw [hbest]

/-- Witness for C10: two sibling integer-matcher directories both accept
`123`; the resolver returns the page of the first-listed one. -/
theorem resolve_equal_score_first_listed_wins_witness :
    fms []
      [FSTree.dir "[a=integer]" [FSTree.file "+page.svelte"],
       FSTree.dir "[b=integer]" [FSTree.file "+page.svelte"]] ["123"]
      = some ["[a=integer]", "+page.svelte"] :=
  resolve_equal_score_first_listed_wins [] "123" [] [] [] []
    [FSTree.file "+page.svelte"] [FSTree.file "+page.svelte"]
    "[a=integer]" "[b=integer]"
    ["[a=integer]", "+page.svelte"] ["[b=integer]", "+page.svelte"]
    (by decide) (by decide) (by rw [fms_nil]; decide)
    (by decide) (by decide) (by rw [fms_nil]; decide)
    (by simp) (by simp) (by simp)

/-! ## Optional parameters and the zero-segment case -/

/-- Counterexample to C5's mechanism clause: with zero segments left the
source calls `findMostSpecificPage` on an optional child — it does **not**
recurse into it with zero segments.  Under `[[a]]/[[b]]/+page.svelte`,
resolving the empty path at the root yields nothing, although recursing into
`[[a]]` with zero segments (second conjunct) does find the page; a
zero-segment recursion semantics would therefore have returned it. -/
theorem optional_no_zero_segment_recursion_cex :
    fms [] [FSTree.dir "[[a]]" [FSTree.dir "[[b]]" [FSTree.file "+page.svelte"]]] [] = none
    ∧ fms ["[[a]]"] [FSTree.dir "[[b]]" [FSTree.file "+page.svelte"]] [] =
        some ["[[a]]", "[[b]]", "+page.svelte"] := by
  constructor
  · rw [fms_nil]; decide
  · rw [fms_nil]; decide

/-- C5 (amended): for a directory whose optional child holds a page file,
resolving without the optional segment and with it returns the same file; at
zero segments the resolver takes the optional child's **most specific page**
(one level deep, no recursion), preferring it over the current directory's
own page. -/
theorem resolve_optional_both_ways
    (pfx : List String) (n s : String) (cs : List FSTree) (r : List String)
    (hn : getRouteType n = RouteType.optional)
    (hb : strStartsWith n "[[" = true) (he : strEndsWith n "]]" = true)
    (hz : zeroOptScan (pfx ++ [n]) cs = none)
    (hp : findMostSpecificPage (pfx ++ [n]) cs = some r) :
    fms pfx [FSTree.dir n cs] [] = some r
    ∧ fms pfx [FSTree.dir n cs] [s] = some r := by
  have hin : fms (pfx ++ [n]) cs [] = some r := by
    rw [fms_nil, hz]; exact hp
  constructor
  · rw [fms_nil]
    have hscan : zeroOptScan pfx [FSTree.dir n cs] = some r := by
      simp [zeroOptScan, hb, he, hp]
    rw [hscan]
  · rw [fms_cons]
    have hm1 : List.map (cand1 pfx s []) [FSTree.dir n cs] = [(none, 0)] := by
      simp [cand1, hn]
    rw [hm1]
    have hm2 : List.map (cand2 pfx s []) [FSTree.dir n cs] = [(some r, 70)] := by
      simp [cand2, hn, hin]
    show bestOf (List.map (cand2 pfx s []) [FSTree.dir n cs]) = some r
    rw [hm2]
    rfl

/-- Witness for C5 (amended): the spec's `docs/[[lang]]` example, resolved
both as `/docs` (no optional segment) and `/docs/en` (with it). -/
theorem resolve_optional_both_ways_witness :
    fms ["docs"] [FSTree.dir "[[lang]]" [FSTree.file "+page.svelte"]] [] =
        some ["docs", "[[lang]]", "+page.svelte"]
    ∧ fms ["docs"] [FSTree.dir "[[lang]]" [FSTree.file "+page.svelte"]] ["en"] =
        some ["docs", "[[lang]]", "+page.svelte"] :=
  resolve_optional_both_ways ["docs"] "[[lang]]" "en" [FSTree.file "+page.svelte"]
    ["docs", "[[lang]]", "+page.svelte"]
    (by decide) (by decide) (by decide) (by decide) (by decide)

/-! ## What counts as a page when segments run out (C9) -/

/-- No entry name of the directory is one of the four names
`findMostSpecificPage` accepts (reset page with target, root reset page,
`+server.js`, `+page.svelte`). -/
def lacksSpecificPage (entries : List FSTree) : Bool :=
  (entries.map FSTree.name).all (fun f =>
    !resetTargetTest f && f != "+page@.svelte" && f != "+server.js" && f != "+page.svelte")

/-- Every `[[...]]`-named child directory also lacks the four accepted
names. -/
def optionalChildrenLackSpecificPage (entries : List FSTree) : Bool :=
  entries.all (fun e =>
    match e with
    | .file _ => true
    | .dir n cs =>
      if strStartsWith n "[[" && strEndsWith n "]]" then lacksSpecificPage cs else true)

theorem findMostSpecificPage_eq_none (pfx : List String) (entries : List FSTree)
    (h : lacksSpecificPage entries = true) :
    findMostSpecificPage pfx entries = none := by
  have hall := List.all_eq_true.mp h
  have hp : ∀ f ∈ entries.map FSTree.name,
      resetTargetTest f = false ∧ f ≠ "+page@.svelte" ∧ f ≠ "+server.js" ∧
        f ≠ "+page.svelte" := by
    intro f hf
    have := hall f hf
    simp only [Bool.and_eq_true, Bool.not_eq_true', bne_iff_ne] at this
    exact ⟨this.1.1.1, this.1.1.2, this.1.2, this.2⟩
  simp only [findMostSpecificPage]
  rw [List.find?_eq_none.mpr (fun f hf => by simp [(hp f hf).1]),
    List.find?_eq_none.mpr (fun f hf => by simp [(hp f hf).2.1]),
    List.find?_eq_none.mpr (fun f hf => by simp [(hp f hf).2.2.1]),
    List.find?_eq_none.mpr (fun f hf => by simp [(hp f hf).2.2.2])]

theorem zeroOptScan_eq_none (pfx : List String) (entries : List FSTree)
    (h : optionalChildrenLackSpecificPage entries = true) :
    zeroOptScan pfx entries = none := by
  induction entries with
  | nil => rfl
  | cons e es ih =>
    have hall := List.all_eq_true.mp h
    have htail : optionalChildrenLackSpecificPage es = true :=
      List.all_eq_true.mpr (fun x hx => hall x (by simp [hx]))
    cases e with
    | file m => exact ih htail
    | dir n cs =>
      simp only [zeroOptScan]
      split
      · rename_i hcond
        have hcs : lacksSpecificPage cs = true := by
          have := hall (FSTree.dir n cs) (by simp)
          simpa [hcond] using this
        rw [findMostSpecificPage_eq_none (pfx ++ [n]) cs hcs]
        exact ih htail
      · exact ih htail

/-- C9 (amended): with all path segments consumed, resolution yields `null`
whenever neither the directory itself nor any of its optional (`[[...]]`)
child directories holds one of the four accepted page names — regardless of
any other route files (`+page.ts`, `+layout.svelte`, `+server.ts`, ...) the
tree builder would recognise. -/
theorem resolve_zero_segments_null_without_specific_page
    (pfx : List String) (entries : List FSTree)
    (h1 : lacksSpecificPage entries = true)
    (h2 : optionalChildrenLackSpecificPage entries = true) :
    fms pfx entries [] = none := by
  rw [fms_nil, zeroOptScan_eq_none pfx entries h2]
  exact findMostSpecificPage_eq_none pfx entries h1

/-- Witness for C9 (amended): a directory with `+page.ts`, `+layout.svelte`
and `+server.ts` (but no `+page.svelte`, reset page or `+server.js`), plus an
optional child in the same situation, resolves to `null`. -/
theorem resolve_zero_segments_null_without_specific_page_witness :
    fms [] [FSTree.file "+page.ts", FSTree.file "+layout.svelte",
      FSTree.file "+server.ts", FSTree.dir "[[lang]]" [FSTree.file "+page.ts"]] [] = none :=
  resolve_zero_segments_null_without_specific_page []
    [FSTree.file "+page.ts", FSTree.file "+layout.svelte",
      FSTree.file "+server.ts", FSTree.dir "[[lang]]" [FSTree.file "+page.ts"]]
    (by decide) (by decide)

/-- Counterexample to C9 as stated: the `docs` directory holds `+page.ts`
but none of the four accepted names (first conjunct), yet resolving
`/docs` — whose segments are fully consumed at `docs` — returns the page of
the optional child `[[lang]]` instead of `null` (second conjunct). -/
theorem resolve_nonnull_without_specific_page_cex :
    findMostSpecificPage ["docs"]
      [FSTree.file "+page.ts", FSTree.dir "[[lang]]" [FSTree.file "+page.svelte"]] = none
    ∧ fms [] [FSTree.dir "docs" [FSTree.file "+page.ts",
        FSTree.dir "[[lang]]" [FSTree.file "+page.svelte"]]] ["docs"]
      = some ["docs", "[[lang]]", "+page.svelte"] := by
  refine ⟨by decide, ?_⟩
  simp +decide [fms, zeroOptScan, findMostSpecificPage, bestOf, bestStep, FSTree.name]

/-! ## Most-specific-page priority order and root resolution (C2) -/

/-- C2: within a directory, `findMostSpecificPage` picks, in priority order
with first match winning: (a) a layout-reset page with an explicit target
(`+page@(...)  .svelte` shape), (b) the root layout-reset page
`+page@.svelte`, (c) the server endpoint `+server.js`, (d) the plain
`+page.svelte`; and `null` when none exists.  Resolving `/` or the empty
path is exactly `findMostSpecificPage` on the root directory. -/
theorem mostSpecificPage_priority (pfx : List String) (entries : List FSTree) :
    (∀ f, (entries.map FSTree.name).find? resetTargetTest = some f →
      findMostSpecificPage pfx entries = some (pfx ++ [f]))
    ∧ ((entries.map FSTree.name).find? resetTargetTest = none →
       ∀ f, (entries.map FSTree.name).find? (fun g => g == "+page@.svelte") = some f →
         findMostSpecificPage pfx entries = some (pfx ++ [f]))
    ∧ ((entries.map FSTree.name).find? resetTargetTest = none →
       (entries.map FSTree.name).find? (fun g => g == "+page@.svelte") = none →
       ∀ f, (entries.map FSTree.name).find? (fun g => g == "+server.js") = some f →
         findMostSpecificPage pfx entries = some (pfx ++ [f]))
    ∧ ((entries.map FSTree.name).find? resetTargetTest = none →
       (entries.map FSTree.name).find? (fun g => g == "+page@.svelte") = none →
       (entries.map FSTree.name).find? (fun g => g == "+server.js") = none →
       ∀ f, (entries.map FSTree.name).find? (fun g => g == "+page.svelte") = some f →
         findMostSpecificPage pfx entries = some (pfx ++ [f]))
    ∧ ((entries.map FSTree.name).find? resetTargetTest = none →
       (entries.map FSTree.name).find? (fun g => g == "+page@.svelte") = none →
       (entries.map FSTree.name).find? (fun g => g == "+server.js") = none →
       (entries.map FSTree.name).find? (fun g => g == "+page.svelte") = none →
       findMostSpecificPage pfx entries = none)
    ∧ findMatchingRoute entries "/" = findMostSpecificPage [] entries
    ∧ findMatchingRoute entries "" = findMostSpecificPage [] entries := by
  refine ⟨?_, ?_, ?_, ?_, ?_, rfl, rfl⟩
  · intro f hf
    simp only [findMostSpecificPage]
    rw [hf]
  · intro h0 f hf
    simp only [findMostSpecificPage]
    rw [h0, hf]
  · intro h0 h1 f hf
    simp only [findMostSpecificPage]
    rw [h0, h1, hf]
  · intro h0 h1 h2 f hf
    simp only [findMostSpecificPage]
    rw [h0, h1, h2, hf]
  · intro h0 h1 h2 h3
    simp only [findMostSpecificPage]
    rw [h0, h1, h2, h3]

/-- Witness for C2: with a layout, a server endpoint and a page present (but
no reset pages), the server endpoint wins. -/
theorem mostSpecificPage_priority_witness :
    findMostSpecificPage [] [FSTree.file "+layout.svelte", FSTree.file "+server.js",
      FSTree.file "+page.svelte"] = some ["+server.js"] :=
  (mostSpecificPage_priority []
    [FSTree.file "+layout.svelte", FSTree.file "+server.js",
      FSTree.file "+page.svelte"]).2.2.1
    (by decide) (by decide) "+server.js" (by decide)

/-! ## Classifier totality and literals (C3) -/

/-- C3: the classifier is total — every string is assigned exactly one of the
six segment kinds — and the six sample literals classify as specified. -/
theorem getRouteType_total_and_literals :
    (∀ s : String, getRouteType s = RouteType.group ∨ getRouteType s = RouteType.rest ∨
      getRouteType s = RouteType.optional ∨ getRouteType s = RouteType.matcher ∨
      getRouteType s = RouteType.dynamic ∨ getRouteType s = RouteType.static)
    ∧ getRouteType "(auth)" = RouteType.group
    ∧ getRouteType "[...rest]" = RouteType.rest
    ∧ getRouteType "[[lang]]" = RouteType.optional
    ∧ getRouteType "[id=integer]" = RouteType.matcher
    ∧ getRouteType "[slug]" = RouteType.dynamic
    ∧ getRouteType "about" = RouteType.static := by
  refine ⟨?_, by decide, by decide, by decide, by decide, by decide, by decide⟩
  intro s
  unfold getRouteType
  repeat' split
  all_goals simp

/-! ## Matcher predicate library (C4) -/

theorem span_split (p : Char → Bool) (l₁ : List Char) (x : Char) (l₂ : List Char)
    (h1 : ∀ c ∈ l₁, p c = true) (hx : p x = false) :
    (l₁ ++ x :: l₂).span p = (l₁, x :: l₂) := by
  rw [List.span_eq_take_drop]
  induction l₁ with
  | nil => simp [hx]
  | cons c cs ih =>
    have hc : p c = true := h1 c (by simp)
    have := ih (fun d hd => h1 d (by simp [hd]))
    simp only [Prod.mk.injEq] at this
    simp [List.takeWhile_cons, List.dropWhile_cons, hc, this.1, this.2]

/-- C4: the built-in matcher predicates behave as specified on the sample
inputs, and any parameter pattern `[p=m]` whose matcher name `m` is none of
the six built-ins accepts every string, the empty string included.  The
hypotheses on `p` and `m` say the pattern is a well-formed matcher directory
name — `p` nonempty without `=`, `m` nonempty without `]` — so that the
regex capture is exactly `m`. -/
theorem matcher_predicate_library (p m : String)
    (hpne : p ≠ "") (hpeq : ∀ c ∈ p.data, c ≠ '=')
    (hmne : m ≠ "") (hmbr : ∀ c ∈ m.data, c ≠ ']')
    (h1 : m ≠ "integer") (h2 : m ≠ "float") (h3 : m ≠ "alpha")
    (h4 : m ≠ "alphanumeric") (h5 : m ≠ "uuid") (h6 : m ≠ "date") :
    isParameterMatchGeneric "123" "[id=integer]" = true
    ∧ isParameterMatchGeneric "12.3" "[id=integer]" = false
    ∧ isParameterMatchGeneric "abc" "[id=integer]" = false
    ∧ isParameterMatchGeneric "123e4567-e89b-12d3-a456-426614174000" "[id=uuid]" = true
    ∧ isParameterMatchGeneric "not-a-uuid" "[id=uuid]" = false
    ∧ (∀ s : String, isParameterMatchGeneric s ("[" ++ p ++ "=" ++ m ++ "]") = true) := by
  refine ⟨by decide, by decide, by decide, by decide, by decide, ?_⟩
  have hdata : ("[" ++ p ++ "=" ++ m ++ "]").data
      = '[' :: (p.data ++ '=' :: (m.data ++ [']'])) := by
    simp [String.data_append]
  have hpd : p.data ≠ [] := by
    intro h
    exact hpne (String.ext (by simpa using h))
  have hmd : m.data ≠ [] := by
    intro h
    exact hmne (String.ext (by simpa using h))
  have htry : tryMatchAfterBracket (p.data ++ '=' :: (m.data ++ [']'])) = some m := by
    unfold tryMatchAfterBracket
    rw [span_split _ p.data '=' (m.data ++ [']'])
      (fun c hc => by simp [hpeq c hc]) (by simp)]
    show (if p.data.isEmpty then none
      else match (m.data ++ [']']).span (fun c => c != ']') with
        | (g2, ']' :: _) => if g2.isEmpty then none else some (String.mk g2)
        | _ => none) = some m
    rw [if_neg (by simp [hpd]),
      show m.data ++ [']'] = m.data ++ ']' :: [] from rfl,
      span_split _ m.data ']' [] (fun c hc => by simp [hmbr c hc]) (by simp)]
    show (if m.data.isEmpty then none else some (String.mk m.data)) = some m
    rw [if_neg (by simp [hmd])]
  have hcap : matcherOfPattern ("[" ++ p ++ "=" ++ m ++ "]").data = some m := by
    rw [hdata]
    simp only [matcherOfPattern]
    rw [if_pos (by simp), htry]
  intro s
  simp only [isParameterMatchGeneric, hcap]
  have hnone : matcherPattern m = none := by
    simp [matcherPattern, h1, h2, h3, h4, h5, h6]
  rw [hnone]

/-- Witness for C4: `customMatcher` is not a built-in, so it accepts the
empty string. -/
theorem matcher_predicate_library_witness :
    isParameterMatchGeneric "" ("[" ++ "id" ++ "=" ++ "customMatcher" ++ "]") = true :=
  (matcher_predicate_library "id" "customMatcher"
    (by decide) (by decide) (by decide) (by decide) (by decide) (by decide)
    (by decide) (by decide) (by decide) (by decide)).2.2.2.2.2 ""

/-! ## The sibling comparator `compareRoutes` and `RouteUtils.naturalSort` (C6) -/

/-- The two values of the `svelteRadar.sortingType` configuration read by
`compareRoutes`. -/
inductive SortingType where
  | natural
  | basic
deriving DecidableEq, Repr

/-- One part of `str.split(/(\d+)/)` after the `parseInt` mapping of
`naturalSort`: a maximal digit run becomes its numeric value, every other
chunk (digit-free, possibly empty) stays a string (`parseInt` is `NaN` on
it). -/
inductive SortPart where
  | str : String → SortPart
  | num : Nat → SortPart
deriving DecidableEq, Repr

/-- Value of a decimal digit run (`parseInt` on a digit string). -/
def digitsToNat (cs : List Char) : Nat :=
  cs.foldl (fun acc c => 10 * acc + (c.toNat - '0'.toNat)) 0

/-- Maximal same-class runs of a string: `true` chunks are digit runs,
`false` chunks are digit-free runs. -/
def splitChunks : List Char → List (Bool × List Char)
  | [] => []
  | c :: rest =>
    let d := isDigitChar c
    match splitChunks rest with
    | (d2, chunk) :: t =>
      if d2 == d then (d, c :: chunk) :: t else (d, [c]) :: (d2, chunk) :: t
    | [] => [(d, [c])]

/-- Reassemble runs with the empty text chunks JS `split` with a capturing
group produces: the result alternates text, captured digit run, text, ...,
text, with an empty text chunk wherever two digit runs would otherwise
touch an end.  (Applied only to `splitChunks` output, where runs of the same
class never repeat.) -/
def assembleChunks : List (Bool × List Char) → List (List Char)
  | [] => [[]]
  | (true, chunk) :: t => [] :: chunk :: assembleChunks t
  | (false, chunk) :: t =>
    match t with
    | [] => [chunk]
    | (_, run) :: t2 => chunk :: run :: assembleChunks t2

/-- The `parseInt` mapping: digit runs to numbers, everything else kept. -/
def toSortPart (cs : List Char) : SortPart :=
  if !cs.isEmpty && cs.all isDigitChar then .num (digitsToNat cs) else .str (String.mk cs)

/-- `splitIntoPartsWithNumbers` of `RouteUtils.naturalSort`. -/
def splitIntoPartsWithNumbers (s : String) : List SortPart :=
  (assembleChunks (splitChunks s.data)).map toSortPart

/-- JS `String(x)` on a part: numbers print in decimal. -/
def SortPart.asString : SortPart → String
  | .str s => s
  | .num n => toString n

/-- `a.localeCompare(b)` under the default locale is locale-dependent; the
model uses code-point comparison, which agrees with it on the
ASCII-lowercase route names at issue.  Returns the sign JS guarantees. -/
def strLocaleCompare (a b : String) : Int :=
  match compare a b with
  | .lt => -1
  | .eq => 0
  | .gt => 1

/-- JS strict equality on mapped parts: a number and a string are never
equal; two numbers or two strings compare by value. -/
def partEq : SortPart → SortPart → Bool
  | .num a, .num b => a == b
  | .str a, .str b => a == b
  | _, _ => false

/-- The per-part comparison of `naturalSort`: numeric difference when both
parts are numbers, otherwise `String(a).localeCompare(String(b))`. -/
def partCmp (a b : SortPart) : Int :=
  match a, b with
  | .num x, .num y => (x : Int) - y
  | _, _ => strLocaleCompare a.asString b.asString

/-- The comparison loop of `naturalSort`: first differing part decides;
with all compared parts equal, the length difference decides. -/
def natCmpParts : List SortPart → List SortPart → Int
  | a :: as, b :: bs => if partEq a b then natCmpParts as bs else partCmp a b
  | as, bs => (as.length : Int) - bs.length

/-- `RouteUtils.naturalSort`. -/
def naturalSort (a b : String) : Int :=
  natCmpParts (splitIntoPartsWithNumbers a) (splitIntoPartsWithNumbers b)

/-- The `getRoutePriority` helper of `compareRoutes`: priority of the last
`/`-segment — rest 0, optional 1, anything else containing `[` 2, static 3.
The source falls through the `isSpecial` block when neither special prefix
matches; the conjunctions reproduce that control flow exactly. -/
def getRoutePriority (route : String) : Int :=
  let segment := ((strSplitOnChar route '/').getLast?).getD ""
  let isSpecial := strStartsWith segment "[..." || strStartsWith segment "[["
  if isSpecial && strStartsWith segment "[..." then 0
  else if isSpecial && strStartsWith segment "[[" then 1
  else if strHasChar segment '[' then 2
  else 3

/-- `RoutesProvider.compareRoutes`, with the `svelteRadar.sortingType`
configuration value passed in as a parameter. -/
def compareRoutes (st : SortingType) (a b : String) : Int :=
  let ap := getRoutePriority a
  let bp := getRoutePriority b
  if ap != bp then bp - ap
  else
    match st with
    | .natural => naturalSort a b
    | .basic => strLocaleCompare a b

/-- Counterexample to C6: `[z=integer]` is a matcher segment and `[a]` a
dynamic one, yet both get priority 2, and the string fallback then puts the
dynamic entry first (positive result = second argument sorts first) under
both configured orders — so the comparator neither ranks matcher above
dynamic nor reserves the fallback for entries of equal kind. -/
theorem compareRoutes_matcher_dynamic_tie_cex :
    getRouteType "[z=integer]" = RouteType.matcher
    ∧ getRouteType "[a]" = RouteType.dynamic
    ∧ getRoutePriority "[z=integer]" = getRoutePriority "[a]"
    ∧ compareRoutes SortingType.natural "[z=integer]" "[a]" = 1
    ∧ compareRoutes SortingType.basic "[z=integer]" "[a]" = 1 := by
  refine ⟨by decide, by decide, by decide, by decide, by decide⟩

/-- C6 (amended): the comparator orders siblings by the segment-kind
priority static > (matcher = dynamic) > optional > rest — matcher and
dynamic segments share one priority level — and exactly when the two
priorities tie (including a matcher against a dynamic) it falls back to the
configured natural or lexicographic order. -/
theorem compareRoutes_priority_then_fallback :
    (∀ (st : SortingType) (a b : String),
      getRoutePriority b < getRoutePriority a → compareRoutes st a b < 0)
    ∧ (∀ (st : SortingType) (a b : String),
      getRoutePriority a < getRoutePriority b → 0 < compareRoutes st a b)
    ∧ (∀ a b : String, getRoutePriority a = getRoutePriority b →
      compareRoutes SortingType.natural a b = naturalSort a b)
    ∧ (∀ a b : String, getRoutePriority a = getRoutePriority b →
      compareRoutes SortingType.basic a b = strLocaleCompare a b)
    ∧ getRoutePriority "about" = 3 ∧ getRoutePriority "[id=integer]" = 2
    ∧ getRoutePriority "[slug]" = 2 ∧ getRoutePriority "[[lang]]" = 1
    ∧ getRoutePriority "[...rest]" = 0 := by
  refine ⟨?_, ?_, ?_, ?_, by decide, by decide, by decide, by decide, by decide⟩
  · intro st a b h
    simp only [compareRoutes]
    rw [if_pos (by simp only [bne_iff_ne, ne_eq]; omega)]
    omega
  · intro st a b h
    simp only [compareRoutes]
    rw [if_pos (by simp only [bne_iff_ne, ne_eq]; omega)]
    omega
  · intro a b h
    simp only [compareRoutes]
    rw [if_neg (by simp [bne_iff_ne, h])]
  · intro a b h
    simp only [compareRoutes]
    rw [if_neg (by simp [bne_iff_ne, h])]

/-- Witness for C6 (amended): a static route sorts before a dynamic one. -/
theorem compareRoutes_priority_then_fallback_witness :
    compareRoutes SortingType.natural "about" "[slug]" < 0 :=
  compareRoutes_priority_then_fallback.1 SortingType.natural "about" "[slug]" (by decide)

/-! ## Layout-reset parsing and route-file scanning (C7) -/

/-- `ResetInfo` from `src/constant/type.ts`: reset target, display name and
the level count (which `parseResetInfo` always leaves at 0, with the source
comment "This will be calculated based on path depth"). -/
structure ResetInfo where
  resetTarget : String
  displayName : String
  layoutLevel : Nat
deriving DecidableEq, Repr

/-- The file roles `findPageInfo` assigns (the `FileType` values used by the
provider). -/
inductive FileType where
  | page
  | pageClient
  | pageServer
  | server
  | layout
  | layoutClient
  | layoutServer
  | error
deriving DecidableEq, Repr

/-- `RouteFileInfo`: one route file found in a directory. -/
structure RouteFileInfo where
  filePath : List String
  fileType : FileType
  resetInfo : Option ResetInfo
deriving DecidableEq, Repr

/-- `fileName.match(/\+page@(.*)\.svelte$/)` viewed as returning the capture:
the JS engine tries start positions left to right; a position matches when
`+page@` is a prefix there and the remainder ends in `.svelte`, and the
greedy anchored `(.*)` then captures everything up to that final
`.svelte`. -/
def resetCapture : List Char → Option String
  | [] => none
  | c :: t =>
    if List.isPrefixOf "+page@".data (c :: t)
        && List.isSuffixOf ".svelte".data ((c :: t).drop 6) then
      some (String.mk (((c :: t).drop 6).take (((c :: t).drop 6).length - 7)))
    else resetCapture t

/-- `RoutesProvider.parseResetInfo`: `resetTarget = match[1] || "root"`,
`displayName = resetTarget || "root"`, `layoutLevel = 0` (never computed
from ancestry — the function receives only the file name). -/
def parseResetInfo (fileName : String) : Option ResetInfo :=
  match resetCapture fileName.data with
  | none => none
  | some cap =>
    let resetTarget := if cap == "" then "root" else cap
    some ⟨resetTarget, if resetTarget == "" then "root" else resetTarget, 0⟩

/-- `RoutesProvider.findPageInfo`: scan the directory's file names in order
(names not starting with `+` are skipped; `+page@` files are reset pages and
checked first), producing one `RouteFileInfo` per recognised route file. -/
def findPageInfo (dir : List String) : List String → List RouteFileInfo
  | [] => []
  | f :: rest =>
    if !(strStartsWith f "+") then findPageInfo dir rest
    else if strIncludes f "+page@" then
      ⟨dir ++ [f], .page, parseResetInfo f⟩ :: findPageInfo dir rest
    else if strStartsWith f "+page.svelte" then
      ⟨dir ++ [f], .page, none⟩ :: findPageInfo dir rest
    else if strStartsWith f "+page.ts" then
      ⟨dir ++ [f], .pageClient, none⟩ :: findPageInfo dir rest
    else if strStartsWith f "+page.server.ts" then
      ⟨dir ++ [f], .pageServer, none⟩ :: findPageInfo dir rest
    else if strStartsWith f "+server.ts" then
      ⟨dir ++ [f], .server, none⟩ :: findPageInfo dir rest
    else if strStartsWith f "+layout.svelte" then
      ⟨dir ++ [f], .layout, none⟩ :: findPageInfo dir rest
    else if strStartsWith f "+layout.ts" then
      ⟨dir ++ [f], .layoutClient, none⟩ :: findPageInfo dir rest
    else if strStartsWith f "+layout.server.ts" then
      ⟨dir ++ [f], .layoutServer, none⟩ :: findPageInfo dir rest
    else if strStartsWith f "+error.svelte" then
      ⟨dir ++ [f], .error, none⟩ :: findPageInfo dir rest
    else findPageInfo dir rest

theorem isPrefixOf_self_append (xs t : List Char) : List.isPrefixOf xs (xs ++ t) = true := by
  induction xs with
  | nil => simp [List.isPrefixOf]
  | cons c cs ih => simp [List.isPrefixOf, ih]

theorem isSuffixOf_append_self (p l : List Char) : List.isSuffixOf p (l ++ p) = true := by
  simp only [List.isSuffixOf, List.reverse_append]
  exact isPrefixOf_self_append p.reverse l.reverse

theorem take_append_self (l p : List Char) : (l ++ p).take l.length = l := by
  induction l with
  | nil => rfl
  | cons c cs ih => simp [ih]

theorem resetCapture_shape (gs : List Char) :
    resetCapture ('+' :: 'p' :: 'a' :: 'g' :: 'e' :: '@' :: '(' ::
        (gs ++ ')' :: ['.', 's', 'v', 'e', 'l', 't', 'e']))
      = some (String.mk ('(' :: (gs ++ [')']))) := by
  rw [resetCapture]
  rw [if_pos]
  · have hrest : ('+' :: 'p' :: 'a' :: 'g' :: 'e' :: '@' :: '(' ::
        (gs ++ ')' :: ['.', 's', 'v', 'e', 'l', 't', 'e'])).drop 6
        = ('(' :: (gs ++ [')'])) ++ ['.', 's', 'v', 'e', 'l', 't', 'e'] := by
      simp
    rw [hrest]
    have hlen : (('(' :: (gs ++ [')'])) ++ ['.', 's', 'v', 'e', 'l', 't', 'e']).length - 7
        = ('(' :: (gs ++ [')'])).length := by
      simp
    rw [hlen, take_append_self]
  · rw [Bool.and_eq_true]
    refine ⟨?_, ?_⟩
    · show List.isPrefixOf "+page@".data _ = true
      have h6 : ("+page@" : String).data = ['+', 'p', 'a', 'g', 'e', '@'] := rfl
      rw [h6]
      simp [List.isPrefixOf]
    · show List.isSuffixOf ".svelte".data _ = true
      have h7 : (".svelte" : String).data = ['.', 's', 'v', 'e', 'l', 't', 'e'] := rfl
      have hrest : ('+' :: 'p' :: 'a' :: 'g' :: 'e' :: '@' :: '(' ::
          (gs ++ ')' :: ['.', 's', 'v', 'e', 'l', 't', 'e'])).drop 6
          = ('(' :: (gs ++ [')'])) ++ ['.', 's', 'v', 'e', 'l', 't', 'e'] := by
        simp
      rw [h7, hrest]
      exact isSuffixOf_append_self _ _

/-- C7 (amended): a layout-reset file `+page@(g).svelte` never aborts the
build — `findPageInfo` always lists it as a `page`-typed node — but its
`resetInfo` is *not* null: it is the parsed target `(g)` verbatim (same
display name, `layoutLevel` 0) regardless of the ancestor directories
(`dir` is arbitrary), because `parseResetInfo` receives only the file name
and never consults ancestry. -/
theorem reset_page_parsed_regardless_of_ancestry (dir : List String) (g : String) :
    parseResetInfo ("+page@(" ++ g ++ ").svelte")
      = some ⟨"(" ++ g ++ ")", "(" ++ g ++ ")", 0⟩
    ∧ findPageInfo dir ["+page@(" ++ g ++ ").svelte"]
      = [⟨dir ++ ["+page@(" ++ g ++ ").svelte"], FileType.page,
          some ⟨"(" ++ g ++ ")", "(" ++ g ++ ")", 0⟩⟩] := by
  have l1 : ("+page@(" : String).data = ['+', 'p', 'a', 'g', 'e', '@', '('] := rfl
  have l2 : (").svelte" : String).data = [')', '.', 's', 'v', 'e', 'l', 't', 'e'] := rfl
  have hdata : ("+page@(" ++ g ++ ").svelte").data
      = '+' :: 'p' :: 'a' :: 'g' :: 'e' :: '@' :: '(' ::
          (g.data ++ ')' :: ['.', 's', 'v', 'e', 'l', 't', 'e']) := by
    simp [String.data_append, l1, l2]
  have hmk : String.mk ('(' :: (g.data ++ [')'])) = "(" ++ g ++ ")" := by
    apply String.ext
    simp [String.data_append]
  have hne : (("(" ++ g ++ ")" : String) == "") = false := by
    rw [beq_eq_false_iff_ne]
    intro h
    have := congrArg String.data h
    simp [String.data_append] at this
  have hparse : parseResetInfo ("+page@(" ++ g ++ ").svelte")
      = some ⟨"(" ++ g ++ ")", "(" ++ g ++ ")", 0⟩ := by
    simp only [parseResetInfo, hdata, resetCapture_shape g.data, hmk, hne]
    simp [hne]
  refine ⟨hparse, ?_⟩
  have hplus : strStartsWith ("+page@(" ++ g ++ ").svelte") "+" = true := by
    simp [strStartsWith, hdata, List.isPrefixOf]
  have hinc : strIncludes ("+page@(" ++ g ++ ").svelte") "+page@" = true := by
    have hp : ("+page@" : String).data = ['+', 'p', 'a', 'g', 'e', '@'] := rfl
    simp only [strIncludes, hdata, hp, listScanFor]
    simp [List.isPrefixOf]
  simp only [findPageInfo, hplus, hinc, Bool.not_true, Bool.false_eq_true, if_false,
    if_true, hparse]

/-- Counterexample to C7: at the routes root — where the named target
`(team)` matches no ancestor group, there being none — the reset page's node
carries a non-null `resetInfo` holding the parsed target, not
`resetInfo = null` as claimed. -/
theorem reset_page_resetInfo_not_null_cex :
    (findPageInfo [] ["+page@(team).svelte"]).map RouteFileInfo.resetInfo
      = [some ⟨"(team)", "(team)", 0⟩]
    ∧ ¬((findPageInfo [] ["+page@(team).svelte"]).map RouteFileInfo.resetInfo
      = [none]) := by
  refine ⟨by decide, by decide⟩

/-! ## `RouteItem` and the view flattener (C8) -/

/-- `RouteItem` (`src/models/routeItem.ts`), restricted to the data the
provider logic reads: label, routePath, filePath, children, routeType and
resetInfo.  Port number, icons, tooltips, collapse state and commands are
host-side presentation glue. -/
inductive RouteItem where
  | mk (label : String) (routePath : String) (filePath : String)
      (children : List RouteItem) (routeType : RouteType)
      (resetInfo : Option ResetInfo)

def RouteItem.label : RouteItem → String
  | .mk l _ _ _ _ _ => l

def RouteItem.routePath : RouteItem → String
  | .mk _ rp _ _ _ _ => rp

def RouteItem.filePath : RouteItem → String
  | .mk _ _ fp _ _ _ => fp

def RouteItem.children : RouteItem → List RouteItem
  | .mk _ _ _ cs _ _ => cs

def RouteItem.routeType : RouteItem → RouteType
  | .mk _ _ _ _ rt _ => rt

def RouteItem.resetInfo : RouteItem → Option ResetInfo
  | .mk _ _ _ _ _ ri => ri

/-- `new RouteItem("", "", "", [], port, "spacer")`. -/
def spacerItem : RouteItem := .mk "" "" "" [] .spacer none

/-- `new RouteItem(section, "", "", [], port, "divider")`. -/
def dividerItem (sec : String) : RouteItem := .mk sec "" "" [] .divider none

/-- The depth-0 copy `flattenRoutes` pushes per visited node: label and
routePath are both the node's routePath, children are dropped, route type
and reset info are kept. -/
def flatCopy (it : RouteItem) : RouteItem :=
  .mk it.routePath it.routePath it.filePath [] it.routeType it.resetInfo

/-- `routeGroups` is a JS `Map`, iterated in key-insertion order: an
association list.  `if (!routeGroups.has(k)) routeGroups.set(k, [])`. -/
def ensureKey (groups : List (String × List RouteItem)) (key : String) :
    List (String × List RouteItem) :=
  if groups.any (fun p => p.1 == key) then groups else groups ++ [(key, [])]

/-- `routeGroups.get(key)?.push(it)`: append to the entry of `key` (a no-op
if the key is absent, which `processRoute` rules out by ensuring it first). -/
def appendToKey : List (String × List RouteItem) → String → RouteItem →
    List (String × List RouteItem)
  | [], _, _ => []
  | (k, items) :: rest, key, it =>
    if k == key then (k, items ++ [it]) :: rest
    else (k, items) :: appendToKey rest key it

/-- The statements of the `processRoute` closure before it recurses into the
children: split the route path at `\`, group under the first segment (or
`"root"`), insert a spacer when crossing into a new second-level sub-path,
update `lastSubDirectory`, and push the node's depth-0 copy.  The state is
the group map paired with `lastSubDirectory`. -/
def topLevelOf (item : RouteItem) : String :=
  let segments := strSplitOnChar item.routePath '\\'
  let s0 := segments.headD ""
  if s0 == "" then "root" else s0

/-- `segments.length > 1 ? segments.slice(0, 2).join("/") : ""`. -/
def subDirOf (item : RouteItem) : String :=
  let segments := strSplitOnChar item.routePath '\\'
  if segments.length > 1 then String.intercalate "/" (segments.take 2) else ""

def processStep (st : List (String × List RouteItem) × String) (item : RouteItem) :
    List (String × List RouteItem) × String :=
  let topLevel := topLevelOf item
  let subDir := subDirOf item
  let groups0 := ensureKey st.1 topLevel
  let groups1 :=
    if subDir != "" && subDir != st.2 && st.2 != "" then
      appendToKey groups0 topLevel spacerItem
    else groups0
  let last1 := if subDir != "" then subDir else st.2
  (appendToKey groups1 topLevel (flatCopy item), last1)

mutual

/-- The `processRoute` closure of `flattenRoutes`: handle the node, then
`item.children.forEach(processRoute)`. -/
def processRoute (st : List (String × List RouteItem) × String) (item : RouteItem) :
    List (String × List RouteItem) × String :=
  processRouteList (processStep st item) item.children
termination_by (sizeOf item, 1)
decreasing_by
  cases item with
  | mk l rp fp cs rt ri =>
    simp [RouteItem.children]
    exact Prod.Lex.left _ _ (by omega)

/-- `routes.forEach(route => processRoute(route))`, threading the state. -/
def processRouteList (st : List (String × List RouteItem) × String)
    (items : List RouteItem) : List (String × List RouteItem) × String :=
  match items with
  | [] => st
  | it :: rest => processRouteList (processRoute st it) rest
termination_by (sizeOf items, 0)

end

/-- `routeGroups.get(section) || []`. -/
def lookupGroup (groups : List (String × List RouteItem)) (key : String) :
    List RouteItem :=
  match groups.find? (fun p => p.1 == key) with
  | some p => p.2
  | none => []

/-- JS `Array.prototype.sort()`'s default string order (code-unit
lexicographic; code points coincide for the names at issue). -/
def strLeb (a b : String) : Bool :=
  match compare a b with
  | .gt => false
  | _ => true

def insertSorted (s : String) : List String → List String
  | [] => [s]
  | t :: ts => if strLeb s t then s :: t :: ts else t :: insertSorted s ts

/-- `Array.from(routeGroups.keys()).sort()`. -/
def sortStrings : List String → List String
  | [] => []
  | s :: ss => insertSorted s (sortStrings ss)

/-- `RoutesProvider.flattenRoutes`: process every route (depth-first,
stateful), then emit each group in sorted key order, preceded by its
divider. -/
def flattenRoutes (routes : List RouteItem) : List RouteItem :=
  let groups := (processRouteList ([], "") routes).1
  let sortedKeys := sortStrings (groups.map Prod.fst)
  sortedKeys.flatMap (fun sec => dividerItem sec :: lookupGroup groups sec)

mutual

/-- Total node count of a route tree (the node itself plus all nested
children). -/
def routeItemCount : RouteItem → Nat
  | .mk _ _ _ children _ _ => 1 + routeItemListCount children
termination_by it => (sizeOf it, 1)

def routeItemListCount : List RouteItem → Nat
  | [] => 0
  | it :: rest => routeItemCount it + routeItemListCount rest
termination_by items => (sizeOf items, 0)

end

mutual

/-- No node of the tree is a `divider` or `spacer` (true of every tree the
builder produces; those two kinds exist only as flattener output). -/
def routeItemGood : RouteItem → Bool
  | .mk _ _ _ children rt _ =>
    !(rt == RouteType.divider || rt == RouteType.spacer) && routeItemListGood children
termination_by it => (sizeOf it, 1)

def routeItemListGood : List RouteItem → Bool
  | [] => true
  | it :: rest => routeItemGood it && routeItemListGood rest
termination_by items => (sizeOf items, 0)

end

/-- A displayed route node: neither a section divider nor a spacer. -/
def isDisplayNode (it : RouteItem) : Bool :=
  !(it.routeType == RouteType.divider || it.routeType == RouteType.spacer)

/-- Number of non-divider, non-spacer nodes in a list. -/
def countDisplay (l : List RouteItem) : Nat :=
  (l.filter isDisplayNode).length

/-- Total displayed-node count across all groups of the map. -/
def groupsDisplayCount (groups : List (String × List RouteItem)) : Nat :=
  (groups.map (fun p => countDisplay p.2)).sum

def keysOf (groups : List (String × List RouteItem)) : List String :=
  groups.map Prod.fst

/-! ## Flatten-completeness lemmas -/

theorem countDisplay_append (a b : List RouteItem) :
    countDisplay (a ++ b) = countDisplay a + countDisplay b := by
  simp [countDisplay, List.filter_append]

theorem ensureKey_count (groups : List (String × List RouteItem)) (key : String) :
    groupsDisplayCount (ensureKey groups key) = groupsDisplayCount groups := by
  unfold ensureKey
  split
  · rfl
  · simp [groupsDisplayCount, countDisplay]

theorem ensureKey_mem (groups : List (String × List RouteItem)) (key : String) :
    key ∈ keysOf (ensureKey groups key) := by
  unfold ensureKey
  split
  · rename_i h
    rcases List.any_eq_true.mp h with ⟨p, hp, hk⟩
    exact List.mem_map.mpr ⟨p, hp, beq_iff_eq.mp hk⟩
  · simp [keysOf]

theorem ensureKey_nodup (groups : List (String × List RouteItem)) (key : String)
    (h : (keysOf groups).Nodup) : (keysOf (ensureKey groups key)).Nodup := by
  unfold ensureKey
  split
  · exact h
  · rename_i hna
    have hkey : key ∉ keysOf groups := by
      intro hk
      rcases List.mem_map.mp hk with ⟨p, hp, he⟩
      exact hna (List.any_eq_true.mpr ⟨p, hp, beq_iff_eq.mpr he⟩)
    simp only [keysOf, List.map_append]
    rw [List.nodup_append]
    refine ⟨h, List.nodup_singleton _, ?_⟩
    intro x hx hx2
    simp at hx2
    subst hx2
    exact hkey hx

theorem appendToKey_keys (groups : List (String × List RouteItem)) (key : String)
    (it : RouteItem) : keysOf (appendToKey groups key it) = keysOf groups := by
  induction groups with
  | nil => rfl
  | cons p rest ih =>
    obtain ⟨k, items⟩ := p
    simp only [appendToKey]
    split
    · rfl
    · simp [keysOf] at ih ⊢
      exact ih

theorem appendToKey_count (groups : List (String × List RouteItem)) (key : String)
    (it : RouteItem) (hmem : key ∈ keysOf groups) :
    groupsDisplayCount (appendToKey groups key it)
      = groupsDisplayCount groups + (if isDisplayNode it then 1 else 0) := by
  induction groups with
  | nil => simp [keysOf] at hmem
  | cons p rest ih =>
    obtain ⟨k, items⟩ := p
    simp only [appendToKey]
    split
    · simp only [groupsDisplayCount, List.map_cons, List.sum_cons, countDisplay,
        List.filter_append, List.length_append]
      split <;> simp [countDisplay, List.filter, *]
      omega
    · rename_i hne
      have hmem2 : key ∈ keysOf rest := by
        rcases List.mem_cons.mp hmem with h | h
        · exact absurd (beq_iff_eq.mpr h.symm) (by simpa using hne)
        · exact h
      simp only [groupsDisplayCount, List.map_cons, List.sum_cons] at ih ⊢
      rw [ih hmem2]
      omega

theorem stepGroups_count (G : List (String × List RouteItem)) (key : String)
    (c : Bool) (item : RouteItem)
    (hnd : (keysOf G).Nodup) (hdisp : isDisplayNode (flatCopy item) = true) :
    groupsDisplayCount (appendToKey
        (if c then appendToKey (ensureKey G key) key spacerItem else ensureKey G key)
        key (flatCopy item))
      = groupsDisplayCount G + 1
    ∧ (keysOf (appendToKey
        (if c then appendToKey (ensureKey G key) key spacerItem else ensureKey G key)
        key (flatCopy item))).Nodup := by
  have h0c := ensureKey_count G key
  have h0m := ensureKey_mem G key
  have h0n := ensureKey_nodup G key hnd
  cases c with
  | false =>
    simp only [Bool.false_eq_true, if_false]
    constructor
    · rw [appendToKey_count _ _ _ h0m, hdisp, h0c]
      simp
    · rw [appendToKey_keys]
      exact h0n
  | true =>
    simp only [if_true]
    have h1m : key ∈ keysOf (appendToKey (ensureKey G key) key spacerItem) := by
      rw [appendToKey_keys]
      exact h0m
    constructor
    · rw [appendToKey_count _ _ _ h1m, hdisp,
        appendToKey_count _ _ _ h0m, h0c]
      have hsp : isDisplayNode spacerItem = false := rfl
      rw [hsp]
      simp
    · rw [appendToKey_keys, appendToKey_keys]
      exact h0n

theorem processStep_count (st : List (String × List RouteItem) × String)
    (item : RouteItem) (hnd : (keysOf st.1).Nodup)
    (hdisp : isDisplayNode (flatCopy item) = true) :
    groupsDisplayCount (processStep st item).1 = groupsDisplayCount st.1 + 1
    ∧ (keysOf (processStep st item).1).Nodup :=
  stepGroups_count st.1 (topLevelOf item)
    (subDirOf item != "" && subDirOf item != st.2 && st.2 != "") item hnd hdisp

theorem routeItemCount_eq (it : RouteItem) :
    routeItemCount it = 1 + routeItemListCount it.children := by
  cases it
  rw [routeItemCount]
  rfl

theorem routeItemGood_eq (it : RouteItem) :
    routeItemGood it
      = (!(it.routeType == RouteType.divider || it.routeType == RouteType.spacer)
          && routeItemListGood it.children) := by
  cases it
  rw [routeItemGood]
  rfl

theorem flatCopy_display (it : RouteItem) :
    isDisplayNode (flatCopy it) = isDisplayNode it := rfl

mutual

theorem processRoute_count (st : List (String × List RouteItem) × String)
    (item : RouteItem) (hnd : (keysOf st.1).Nodup)
    (hg : routeItemGood item = true) :
    groupsDisplayCount (processRoute st item).1
      = groupsDisplayCount st.1 + routeItemCount item
    ∧ (keysOf (processRoute st item).1).Nodup := by
  rw [routeItemGood_eq, Bool.and_eq_true] at hg
  have hdisp : isDisplayNode (flatCopy item) = true := by
    rw [flatCopy_display]
    exact hg.1
  obtain ⟨hsc, hsn⟩ := processStep_count st item hnd hdisp
  obtain ⟨hlc, hln⟩ := processRouteList_count (processStep st item) item.children hsn hg.2
  rw [processRoute]
  refine ⟨?_, hln⟩
  rw [hlc, hsc, routeItemCount_eq]
  omega
termination_by (sizeOf item, 1)
decreasing_by
  cases item with
  | mk l rp fp cs rt ri =>
    simp [RouteItem.children]
    exact Prod.Lex.left _ _ (by omega)

theorem processRouteList_count (st : List (String × List RouteItem) × String)
    (items : List RouteItem) (hnd : (keysOf st.1).Nodup)
    (hg : routeItemListGood items = true) :
    groupsDisplayCount (processRouteList st items).1
      = groupsDisplayCount st.1 + routeItemListCount items
    ∧ (keysOf (processRouteList st items).1).Nodup := by
  match items with
  | [] =>
    rw [processRouteList]
    simp only [routeItemListCount]
    exact ⟨by omega, hnd⟩
  | it :: rest =>
    rw [routeItemListGood] at hg
    rw [Bool.and_eq_true] at hg
    obtain ⟨hic, hin⟩ := processRoute_count st it hnd hg.1
    obtain ⟨hrc, hrn⟩ := processRouteList_count (processRoute st it) rest hin hg.2
    rw [processRouteList]
    refine ⟨?_, hrn⟩
    rw [hrc, hic, routeItemListCount]
    omega
termination_by (sizeOf items, 0)

end

theorem insertSorted_perm (s : String) (l : List String) :
    (insertSorted s l).Perm (s :: l) := by
  induction l with
  | nil => exact List.Perm.refl _
  | cons t ts ih =>
    unfold insertSorted
    split
    · exact List.Perm.refl _
    · exact (ih.cons t).trans (List.Perm.swap s t ts)

theorem sortStrings_perm (l : List String) : (sortStrings l).Perm l := by
  induction l with
  | nil => exact List.Perm.refl _
  | cons s ss ih => exact (insertSorted_perm s (sortStrings ss)).trans (ih.cons s)

theorem lookupGroup_cons_self (k : String) (items : List RouteItem)
    (rest : List (String × List RouteItem)) :
    lookupGroup ((k, items) :: rest) k = items := by
  simp [lookupGroup, List.find?_cons_of_pos]

theorem lookupGroup_cons_ne (k k2 : String) (items : List RouteItem)
    (rest : List (String × List RouteItem)) (h : k ≠ k2) :
    lookupGroup ((k, items) :: rest) k2 = lookupGroup rest k2 := by
  simp only [lookupGroup]
  rw [List.find?_cons_of_neg]
  simpa using h

theorem sum_over_keys (groups : List (String × List RouteItem))
    (hnd : (keysOf groups).Nodup) :
    ((keysOf groups).map (fun k => countDisplay (lookupGroup groups k))).sum
      = groupsDisplayCount groups := by
  induction groups with
  | nil => rfl
  | cons p rest ih =>
    obtain ⟨k, items⟩ := p
    have hk : keysOf ((k, items) :: rest) = k :: keysOf rest := rfl
    rw [hk] at hnd ⊢
    have hnotin : k ∉ keysOf rest := (List.nodup_cons.mp hnd).1
    have hrest : (keysOf rest).Nodup := (List.nodup_cons.mp hnd).2
    simp only [List.map_cons, List.sum_cons, lookupGroup_cons_self]
    have hcong : (keysOf rest).map (fun k2 => countDisplay (lookupGroup ((k, items) :: rest) k2))
        = (keysOf rest).map (fun k2 => countDisplay (lookupGroup rest k2)) := by
      apply List.map_congr_left
      intro k2 hk2
      rw [lookupGroup_cons_ne k k2 items rest (fun he => hnotin (he ▸ hk2))]
    rw [hcong, ih hrest]
    rfl

theorem countDisplay_divider_cons (sec : String) (l : List RouteItem) :
    countDisplay (dividerItem sec :: l) = countDisplay l := by
  simp [countDisplay, dividerItem, List.filter, isDisplayNode, RouteItem.routeType]

theorem countDisplay_flatMap (keys : List String)
    (groups : List (String × List RouteItem)) :
    countDisplay (keys.flatMap (fun sec => dividerItem sec :: lookupGroup groups sec))
      = (keys.map (fun sec => countDisplay (lookupGroup groups sec))).sum := by
  induction keys with
  | nil => rfl
  | cons k ks ih =>
    rw [List.flatMap_cons, countDisplay_append, countDisplay_divider_cons,
      List.map_cons, List.sum_cons, ih]

/-- C8: flattening a route tree in which no node is a divider or spacer (as
holds for every tree the builder produces — those kinds only exist as
flattener output) yields exactly one non-divider, non-spacer node per
original tree node, nested children included. -/
theorem flatten_preserves_node_count (routes : List RouteItem)
    (hg : routeItemListGood routes = true) :
    countDisplay (flattenRoutes routes) = routeItemListCount routes := by
  obtain ⟨hc, hn⟩ := processRouteList_count ([], "") routes (by simp [keysOf]) hg
  simp only [flattenRoutes]
  rw [countDisplay_flatMap]
  have hperm := (sortStrings_perm ((processRouteList ([], "") routes).1.map Prod.fst)).map
    (fun sec => countDisplay (lookupGroup (processRouteList ([], "") routes).1 sec))
  rw [hperm.sum_eq]
  have := sum_over_keys (processRouteList ([], "") routes).1 hn
  simp only [keysOf] at this
  rw [this, hc]
  simp [groupsDisplayCount]

/-- Witness for C8: a two-root tree with one nested child flattens to three
displayed nodes, the tree's total node count. -/
theorem flatten_preserves_node_count_witness :
    countDisplay (flattenRoutes
      [RouteItem.mk "a" "a" "fa"
        [RouteItem.mk "b" "a\\b" "fb" [] RouteType.static none] RouteType.static none,
       RouteItem.mk "z" "z" "fz" [] RouteType.dynamic none]) = 3 := by
  have hg : routeItemListGood
      [RouteItem.mk "a" "a" "fa"
        [RouteItem.mk "b" "a\\b" "fb" [] RouteType.static none] RouteType.static none,
       RouteItem.mk "z" "z" "fz" [] RouteType.dynamic none] = true := by
    simp [routeItemGood, routeItemListGood]
  rw [flatten_preserves_node_count _ hg]
  simp [routeItemCount, routeItemListCount]
